import Mathlib

/-
Verification development for the deribit-api repository: a shallow embedding
of the schema-to-type compiler (build.rs) and of the connection multiplexer
and client facade (src/lib.rs), with theorems settling the spec claims.

Modelling conventions:
* JSON values are `JVal`; numbers are restricted to integers (every input the
  claims exercise is an integer or a string; float formatting is outside the
  embedding).
* serde_json maps (`Map<String, Value>`) are association lists with unique
  keys, accessed through `alGet` / `alInsert` / `alRemove`; only the
  get/insert/remove semantics of the map are observable in the source.
* The multiplexer control loop (src/lib.rs, `DeribitClient::connect`) is a
  step function over an explicit `LoopState`; each `Event` is one arm of the
  `tokio::select!`.  The tokio broadcast endpoint is modelled by its live
  receiver count; `broadcast::Sender::send` fails exactly when that count is
  zero.  Dropping a subscriber's reader happens outside the loop and is
  modelled by the separate `dropReceiver` function.
* Recursive build-time functions (`expand_ref`, `determine_type`) take a fuel
  parameter; the source recurses unboundedly and terminates because the API
  description is acyclic, so any sufficiently large fuel computes the same
  result as the source.
-/

namespace Deribit

/-- JSON values (numbers restricted to integers). -/
inductive JVal where
  | jnull : JVal
  | jbool (b : Bool) : JVal
  | jnum (n : Int) : JVal
  | jstr (s : String) : JVal
  | jarr (xs : List JVal) : JVal
  | jobj (fields : List (String × JVal)) : JVal

/-- Schemas and other serde_json objects: association lists of key/value pairs. -/
abbrev Schema := List (String × JVal)

def asString : JVal → Option String
  | .jstr s => some s
  | _ => none

def asBool : JVal → Option Bool
  | .jbool b => some b
  | _ => none

def asArray : JVal → Option (List JVal)
  | .jarr xs => some xs
  | _ => none

def asObject : JVal → Option Schema
  | .jobj fs => some fs
  | _ => none

/-! String helpers over character lists (computable by the kernel).  They
model the corresponding `str` operations of the source, which split on single
characters and test string prefixes/suffixes. -/

/-- Rust `str::split(c)` on a character. -/
def splitChars (c : Char) : List Char → List (List Char)
  | [] => [[]]
  | x :: rest =>
      match splitChars c rest with
      | [] => [[]]
      | g :: gs => if x = c then [] :: g :: gs else (x :: g) :: gs

def splitOnChar (c : Char) (s : String) : List String :=
  (splitChars c s.toList).map String.mk

/-- Rust `str::starts_with`. -/
def strStartsWith (s pre : String) : Bool := pre.toList.isPrefixOf s.toList

/-- Rust `str::ends_with`. -/
def strEndsWith (s suf : String) : Bool := suf.toList.isSuffixOf s.toList

def strLower (s : String) : String := String.mk (s.toList.map Char.toLower)

section AssocList

variable {κ : Type _} {α : Type _} [DecidableEq κ]

/-- Map lookup (serde_json `Map::get`). -/
def alGet (k : κ) : List (κ × α) → Option α
  | [] => none
  | kv :: rest => if kv.1 = k then some kv.2 else alGet k rest

/-- Map removal (serde_json `Map::remove`). -/
def alRemove (k : κ) : List (κ × α) → List (κ × α)
  | [] => []
  | kv :: rest => if kv.1 = k then alRemove k rest else kv :: alRemove k rest

/-- Map insertion, replacing any existing entry (serde_json `Map::insert`). -/
def alInsert (k : κ) (v : α) (m : List (κ × α)) : List (κ × α) :=
  (k, v) :: alRemove k m

/-- Map extension (serde_json `Map::extend`): entries of `extra` are inserted
into `base` in order, later entries overriding earlier ones. -/
def alExtend (base extra : List (κ × α)) : List (κ × α) :=
  extra.foldl (fun m kv => alInsert kv.1 kv.2 m) base

/-- Keys of a serde_json map are pairwise distinct. -/
def keysNodup (m : List (κ × α)) : Prop := (m.map Prod.fst).Nodup

end AssocList

/-- First-defined option, the lookup discipline of an extended map. -/
def optOr {α : Type _} : Option α → Option α → Option α
  | some v, _ => some v
  | none, b => b

/-! Runtime model: the connection multiplexer and the client facade
(src/lib.rs, `DeribitClient`). -/

/-- RPC error payload (src/lib.rs `RpcError`). -/
structure RpcError where
  code : Int
  message : String
  data : Option JVal

/-- Client error taxonomy (src/lib.rs `Error`).  The WebSocket and JSON error
variants carry foreign library errors in the source; here they carry their
display text. -/
inductive ClientError where
  | rpcError (e : RpcError)
  | webSocketError (msg : String)
  | jsonError (msg : String)
  | invalidSubscriptionChannel (channel : String)
  | subscriptionLagged (n : Nat)

/-- Outbound JSON-RPC request (src/lib.rs `RpcRequest`; the constant
`jsonrpc: "2.0"` field is omitted). -/
structure RpcRequest where
  id : Nat
  method : String
  params : JVal

/-- Heartbeat params type (src/lib.rs `HeartbeatType`). -/
inductive HeartbeatType where
  | heartbeat
  | testRequest
deriving DecidableEq

/-- A channel's broadcast distribution endpoint, modelled by its live receiver
count.  `broadcast::Sender::send` fails exactly when the count is zero. -/
structure Endpoint where
  receivers : Nat

/-- State of the multiplexer control loop (src/lib.rs `connect`, spawned task):
the pending-request table, the subscriber registry, the shared id counter, and
observable effect logs (frames written to the transport, completion handles
fulfilled, notification payloads delivered to live endpoints). -/
structure LoopState where
  pending : List (Nat × Nat)
  subscribers : List (String × Endpoint)
  counter : Nat
  sent : List RpcRequest
  fulfilled : List (Nat × Except ClientError JVal)
  delivered : List (String × JVal)

def initLoopState : LoopState := ⟨[], [], 0, [], [], []⟩

/-- One event of the control loop: either a decoded inbound frame (heartbeat,
notification, success response, error response — src/lib.rs `JsonRPCMessage`),
an outbound request handed in with its one-shot completion handle, or a
subscription registration for a channel string. -/
inductive Event where
  | heartbeat (t : HeartbeatType)
  | notification (channel : String) (data : JVal)
  | okResponse (id : Nat) (result : JVal)
  | errResponse (id : Nat) (err : RpcError)
  | request (req : RpcRequest) (handle : Nat)
  | subscribeReg (channel : String) (handle : Nat)

/-- One iteration of the control loop (src/lib.rs lines 221-296), processing a
single event. -/
def step (s : LoopState) (e : Event) : LoopState :=
  match e with
  | .heartbeat t =>
      if t = HeartbeatType.testRequest then
        { s with counter := s.counter + 1,
                 sent := s.sent ++ [⟨s.counter, "public/test", JVal.jnull⟩] }
      else s
  | .notification channel data =>
      match alGet channel s.subscribers with
      | some tx =>
          if tx.receivers = 0 then
            { s with subscribers := alRemove channel s.subscribers }
          else
            { s with delivered := s.delivered ++ [(channel, data)] }
      | none => s
  | .okResponse id result =>
      match alGet id s.pending with
      | some tx =>
          { s with pending := alRemove id s.pending,
                   fulfilled := s.fulfilled ++ [(tx, Except.ok result)] }
      | none => s
  | .errResponse id err =>
      match alGet id s.pending with
      | some tx =>
          { s with pending := alRemove id s.pending,
                   fulfilled := s.fulfilled ++ [(tx, Except.error (ClientError.rpcError err))] }
      | none => s
  | .request req tx =>
      { s with pending := alInsert req.id tx s.pending,
               sent := s.sent ++ [req] }
  | .subscribeReg channel _ =>
      match alGet channel s.subscribers with
      | some tx =>
          { s with subscribers := alInsert channel ⟨tx.receivers + 1⟩ s.subscribers }
      | none =>
          { s with subscribers := alInsert channel ⟨1⟩ s.subscribers }

/-- A subscriber dropping its broadcast reader (this happens outside the
control loop and decrements the endpoint's live receiver count). -/
def dropReceiver (s : LoopState) (channel : String) : LoopState :=
  match alGet channel s.subscribers with
  | some tx => { s with subscribers := alInsert channel ⟨tx.receivers - 1⟩ s.subscribers }
  | none => s

/-- Every id in the pending table was allocated by an earlier fetch-add on the
shared counter, hence is below its current value.  The loop's fresh heartbeat
ids come from the same counter (`id_counter_clone`) as caller ids
(`next_id`). -/
def pendingBound (s : LoopState) : Prop := ∀ kv ∈ s.pending, kv.1 < s.counter

/-- Caller-side client state (src/lib.rs `DeribitClient`): the authenticated
flag and the shared id counter. -/
structure ClientState where
  authenticated : Bool
  idCounter : Nat

/-- Client state as constructed at the end of `connect` (src/lib.rs lines
300-305): flag false, counter fresh. -/
def connectClient : ClientState := ⟨false, 0⟩

/-- Model of `DeribitClient::call_raw` (src/lib.rs lines 312-334): allocate an
id with `next_id`, build the request, send it, await the one-shot reply
(`reply` is what the control loop fulfilled the handle with); the `??`
operator propagates an error before the authenticated-flag check, so only a
successful reply to the literal method "public/auth" stores `true`.  Returns
the updated client state, the request that was sent, and the call's result. -/
def call_raw (c : ClientState) (method : String) (params : JVal)
    (reply : Except ClientError JVal) :
    ClientState × RpcRequest × Except ClientError JVal :=
  let request : RpcRequest := ⟨c.idCounter, method, params⟩
  let c' : ClientState := { c with idCounter := c.idCounter + 1 }
  match reply with
  | .error e => (c', request, .error e)
  | .ok value =>
      if method = "public/auth" then
        ({ c' with authenticated := true }, request, .ok value)
      else
        (c', request, .ok value)

/-- Generated request type for the public subscribe method. -/
structure PublicSubscribeRequest where
  channels : List String

def PublicSubscribeRequest.methodName (_ : PublicSubscribeRequest) : String :=
  "public/subscribe"

/-- Generated request type for the private subscribe method. -/
structure PrivateSubscribeRequest where
  channels : List String
  label : Option String

def PrivateSubscribeRequest.methodName (_ : PrivateSubscribeRequest) : String :=
  "private/subscribe"

/-- Private-scope classification (src/lib.rs `ApiRequest::is_private`). -/
def isPrivateName (method : String) : Bool := strStartsWith method "private/"

/-- Observable outcome of `subscribe_raw`: which subscribe method was called,
the channel list it carried, which channel string was registered with the
loop (if any), and the call's result. -/
structure SubscribeRawOutcome where
  callMethod : String
  sentChannels : List String
  registeredChannel : Option String
  result : Except ClientError Unit

/-- Model of `DeribitClient::subscribe_raw` (src/lib.rs lines 342-371):
issue a private- or public-scoped subscribe call carrying the single requested
channel (private iff the authenticated flag is set), then register a reader
for the first channel string of the server's result; if the result lists no
channel, fail with an invalid-subscription error naming the requested channel
and register nothing.  `serverChannels` is the decoded result of the subscribe
call. -/
def subscribe_raw (authenticated : Bool) (channel : String)
    (serverChannels : List String) : SubscribeRawOutcome :=
  let channels := [channel]
  let sent :=
    if authenticated then
      let req : PrivateSubscribeRequest := ⟨channels, none⟩
      (req.methodName, req.channels)
    else
      let req : PublicSubscribeRequest := ⟨channels⟩
      (req.methodName, req.channels)
  match serverChannels.head? with
  | some confirmed => ⟨sent.1, sent.2, some confirmed, .ok ()⟩
  | none => ⟨sent.1, sent.2, none, .error (.invalidSubscriptionChannel channel)⟩

/-! Identifier normalization (build.rs `to_pascal_case`, `to_snake_case`,
`sanitize_ident`, `escape_rust_keyword`). -/

/-- Capitalize one word: first char uppercased, rest lowercased (build.rs
lines 598-608; ASCII-faithful). -/
def capitalizeWord (w : String) : String :=
  match w.toList with
  | [] => ""
  | c :: rest => String.singleton c.toUpper ++ strLower (String.mk rest)

/-- build.rs `to_pascal_case`: split on '/' and '_', capitalize each word,
concatenate; a leading digit gets an underscore prepended. -/
def to_pascal_case (s : String) : String :=
  let result := String.join ((splitOnChar '/' s).map fun part =>
    String.join ((splitOnChar '_' part).map capitalizeWord))
  match result.toList with
  | c :: _ => if c.isDigit then "_" ++ result else result
  | [] => result

/-- build.rs `to_snake_case`: a string that is all-uppercase-or-nonalphabetic
is lowercased wholesale; otherwise each uppercase char is lowercased with an
underscore inserted before it (except at the start). -/
def to_snake_case (s : String) : String :=
  if s.toList.all (fun c => c.isUpper || !c.isAlpha) then
    strLower s
  else
    String.mk (s.toList.foldl
      (fun acc c =>
        if c.isUpper then
          if acc.isEmpty then acc ++ [c.toLower] else acc ++ ['_', c.toLower]
        else acc ++ [c])
      [])

/-- build.rs `sanitize_ident`: non-alphanumeric chars become '_'; empty input
becomes "_"; a leading digit gets an underscore prepended. -/
def sanitize_ident (s : String) : String :=
  let out := String.mk (s.toList.map fun c => if c.isAlphanum || c = '_' then c else '_')
  match out.toList with
  | [] => "_"
  | c :: _ => if c.isDigit then "_" ++ out else out

/-- build.rs `escape_rust_keyword`. -/
def escape_rust_keyword (s : String) : String :=
  let keywords := ["as", "break", "const", "continue", "crate", "else", "enum",
    "extern", "false", "fn", "for", "if", "impl", "in", "let", "loop", "match",
    "mod", "move", "mut", "pub", "ref", "return", "self", "Self", "static",
    "struct", "super", "trait", "true", "type", "unsafe", "use", "where",
    "while", "async", "await", "dyn", "abstract", "become", "box", "do",
    "final", "macro", "override", "priv", "try", "typeof", "unsized",
    "virtual", "yield"]
  if keywords.contains s then "r#" ++ s else s

def to_valid_pascal_case (s : String) : String := sanitize_ident (to_pascal_case s)

def to_valid_snake_case (s : String) : String :=
  escape_rust_keyword (sanitize_ident (to_snake_case s))

/-! JSON text rendering (serde_json `Value::to_string`), used by the
stringification fallback of `sub_param_to_string` and by non-string enum
literals. -/

def hexDigit (n : Nat) : Char :=
  if n < 10 then Char.ofNat (48 + n) else Char.ofNat (87 + (n - 10))

def escapeJsonChar (c : Char) : String :=
  if c = '"' then "\\\""
  else if c = '\\' then "\\\\"
  else if c = '\x08' then "\\b"
  else if c = '\x0c' then "\\f"
  else if c = '\n' then "\\n"
  else if c = '\r' then "\\r"
  else if c = '\t' then "\\t"
  else if c.toNat < 32 then
    "\\u00" ++ String.singleton (hexDigit (c.toNat / 16))
      ++ String.singleton (hexDigit (c.toNat % 16))
  else String.singleton c

def renderJString (s : String) : String :=
  "\"" ++ String.join (s.toList.map escapeJsonChar) ++ "\""

mutual

/-- JSON compact text form of a value. -/
def renderJVal : JVal → String
  | .jnull => "null"
  | .jbool true => "true"
  | .jbool false => "false"
  | .jnum n => toString n
  | .jstr s => renderJString s
  | .jarr xs => "[" ++ String.intercalate "," (renderJList xs) ++ "]"
  | .jobj fs => "\x7b" ++ String.intercalate "," (renderJFields fs) ++ "\x7d"

def renderJList : List JVal → List String
  | [] => []
  | x :: xs => renderJVal x :: renderJList xs

def renderJFields : List (String × JVal) → List String
  | [] => []
  | f :: fs => (renderJString f.1 ++ ":" ++ renderJVal f.2) :: renderJFields fs

end

/-! Generated-code semantics: channel strings, request parameter
serialization, enumerated string types. -/

/-- src/lib.rs `sub_param_to_string` (lines 177-185): the serialized field
value passes through unquoted if it is a JSON string, numbers and booleans
use their own to_string, anything else falls back to the JSON text form. -/
def sub_param_to_string (json : JVal) : String :=
  match json with
  | .jstr s => s
  | .jnum n => toString n
  | .jbool b => if b then "true" else "false"
  | _ => renderJVal json

/-- One dot-separated segment of the generated `channel_string` body
(build.rs lines 529-541): a brace-delimited `(param)` segment becomes
`sub_param_to_string` of the field named by the snake-cased parameter name,
a literal segment stays as is.  `fields` gives the serialized value of each
generated struct field. -/
def channelSegment (fields : String → JVal) (part : String) : String :=
  if strStartsWith part "\x7b" && strEndsWith part "\x7d" then
    sub_param_to_string
      (fields (to_valid_snake_case (String.mk (part.toList.drop 1).dropLast)))
  else part

/-- The generated `Subscription::channel_string` (build.rs lines 529-554):
split the channel template on '.', map each segment, join with ".". -/
def channel_string (channelKey : String) (fields : String → JVal) : String :=
  String.intercalate "." ((splitOnChar '.' channelKey).map (channelSegment fields))

/-- Segment of a channel template as the spec describes it: either a literal
or a `(param)` placeholder (carrying the derived field name). -/
inductive Segment where
  | lit (s : String)
  | param (fieldName : String)

/-- Modelled from the spec: classify one dot-separated template segment. -/
def parseSegment (part : String) : Segment :=
  if strStartsWith part "\x7b" && strEndsWith part "\x7d" then
    .param (to_valid_snake_case (String.mk (part.toList.drop 1).dropLast))
  else .lit part

/-- Modelled from the spec: substitute one parsed segment — placeholders get
the stringified field value, literals stay untouched. -/
def renderSegment (fields : String → JVal) : Segment → String
  | .lit s => s
  | .param name => sub_param_to_string (fields name)

/-- Modelled from the spec: the channel string is the template's dot-separated
segments, each substituted, joined with ".". -/
def specChannelString (channelKey : String) (fields : String → JVal) : String :=
  String.intercalate "."
    (((splitOnChar '.' channelKey).map parseSegment).map (renderSegment fields))

/-- One field of a constructed generated-request value.  A field emitted by
build.rs `field_tokens` with `required = true` is a plain `pub name: T` (with
`#[serde(default)]`) and always serializes; an optional field is
`Option<T>` with `#[serde(skip_serializing_if = "Option::is_none")]`. -/
inductive FieldValue where
  | requiredField (name : String) (value : JVal)
  | optionalField (name : String) (value : Option JVal)

/-- Wire form of one field under the generated serde attributes: a required
field always yields its key; an optional field yields its key only when the
value is present (skip_serializing_if Option::is_none). -/
def serializeField : FieldValue → Option (String × JVal)
  | .requiredField name value => some (name, value)
  | .optionalField name value => value.map fun v => (name, v)

/-- src/lib.rs `ApiRequest::to_params` (lines 165-168) on a generated request
struct: the serde-derived serialization collects the serialized fields into a
JSON object. -/
def to_params (fields : List FieldValue) : JVal :=
  .jobj (fields.filterMap serializeField)

def objFields : JVal → List (String × JVal)
  | .jobj fs => fs
  | _ => []

/-- Wire literals of a generated enumerated string type (build.rs lines
300-313): each enum value contributes its string form, non-strings falling
back to their JSON text. -/
def enumWireValues (enumValues : List JVal) : List String :=
  enumValues.map fun v => (asString v).getD (renderJVal v)

/-- Serialization of variant `i` of a generated enum: the serde
`#[serde(rename = value)]` attribute makes it the original wire literal. -/
def enumSerialize (values : List String) (i : Fin values.length) : String :=
  values.get i

/-- Deserialization of a string into a generated enum: the first variant
whose rename literal matches. -/
def enumDeserialize (values : List String) (s : String) : Option Nat :=
  values.findIdx? fun v => v = s

/-! Build-time compiler embedding (build.rs `DeribitApiGen`). -/

/-- serde_json `Value::get` with a string key: object lookup, `none` on
anything else. -/
def jget (v : JVal) (key : String) : Option JVal :=
  match v with
  | .jobj fs => alGet key fs
  | _ => none

/-- build.rs `get_deep_value` (lines 560-566). -/
def get_deep_value : List String → JVal → Option JVal
  | [], v => some v
  | key :: rest, v => (jget v key).bind (get_deep_value rest)

/-- A reference resolver: what `resolve_ref` provides to `expand_ref`, namely
an optional (display name, resolved fragment) per pointer string. -/
abbrev RefResolver := String → Option (String × Schema)

/-- build.rs `resolve_ref` (lines 209-218): strip the leading "#/", walk the
description by path parts, require an object, name it by the ref-names table
or the last path part. -/
def resolve_ref (spec : JVal) (refNames : List (String × String)) : RefResolver :=
  fun refPath =>
    if strStartsWith refPath "#/" then
      let refParts := splitOnChar '/' (String.mk (refPath.toList.drop 2))
      ((get_deep_value refParts spec).bind asObject).map fun r =>
        let base := refParts.getLastD ""
        ((alGet refPath refNames).getD base, r)
    else none

/-- build.rs `expand_ref` (lines 220-228): if the object carries a "$ref"
string, resolve it, overlay the sibling fields of the referring object on the
resolved fragment, and recursively expand the result; `none` when there is no
"$ref" or the pointer does not resolve.  The source recursion is unbounded;
`fuel` bounds it here (the description is acyclic, so large fuel is exact). -/
def expand_ref (resolve : RefResolver) : Nat → Schema → Option (String × Schema)
  | 0, _ => none
  | fuel + 1, object =>
      match (alGet "$ref" object).bind asString with
      | none => none
      | some refPath =>
          (resolve refPath).map fun nr =>
            let object' := alRemove "$ref" object
            let refObj := alExtend nr.2 object'
            (expand_ref resolve fuel refObj).getD (nr.1, refObj)

/-- One key/value of a later allOf fragment merged into the accumulated
schema (build.rs lines 244-278): "properties" objects are unioned (later
entries extending, hence overriding, earlier ones), "required" arrays are
concatenated, every other key is overwritten. -/
def mergeEntry (acc : Schema) (key : String) (value : JVal) : Schema :=
  if key = "properties" then
    let properties :=
      (((alGet "properties" acc).bind asObject).bind fun props =>
        (asObject value).map fun p => JVal.jobj (alExtend props p)).getD value
    alInsert "properties" properties acc
  else if key = "required" then
    let required :=
      (((alGet "required" acc).bind asArray).bind fun req =>
        (asArray value).map fun r => JVal.jarr (req ++ r)).getD value
    alInsert "required" required acc
  else
    alInsert key value acc

/-- Merge a whole later fragment into the accumulated schema, key by key. -/
def mergeSchema (acc : Schema) (frag : Schema) : Schema :=
  frag.foldl (fun acc kv => mergeEntry acc kv.1 kv.2) acc

/-- One allOf list element prepared for merging (build.rs lines 239-243):
non-objects are skipped (`filter_map`), objects are reference-expanded first,
an unresolvable reference falling back to the element itself. -/
def allOfElement (resolve : RefResolver) (fuel : Nat) (v : JVal) : Option Schema :=
  (asObject v).map fun obj => ((expand_ref resolve fuel obj).map Prod.snd).getD obj

/-- The left-to-right allOf fold (build.rs lines 235-280), starting from the
empty schema. -/
def foldAllOf (resolve : RefResolver) (fuel : Nat) (frags : List JVal) : Schema :=
  frags.foldl
    (fun acc v =>
      match allOfElement resolve fuel v with
      | some sch => mergeSchema acc sch
      | none => acc)
    []

/-- Synthesized target-language types (the `TokenStream` results of
build.rs `determine_type`). -/
inductive RustType where
  | rString
  | rI64
  | rF64
  | rBool
  | rVec (item : RustType)
  | rTuple (items : List RustType)
  | rHashMap (value : RustType)
  | rValue
  | rNamed (name : String)

/-- One emitted struct field: wire name, synthesized type, mandatory flag. -/
structure FieldSpec where
  name : String
  fieldType : RustType
  required : Bool

/-- Mutable generation state: the generated-type registry plus the emitted
enum and struct shapes (the `generated_types` set and the relevant parts of
`generated_code`). -/
structure GenState where
  generatedTypes : List String
  enums : List (String × List String)
  structs : List (String × List FieldSpec)

def initGenState : GenState := ⟨[], [], []⟩

/-- build.rs `determine_type` (lines 230-448).  Follows the source
clause-for-clause: reference expansion with inline fallback, the allOf fold
re-entering recursively, schema-kind inference from an explicit "type" or the
presence of "properties"/"items", then the string/enum, primitive, array
(homogeneous and positional-tuple), and object (dynamic-key "$value" marker,
brace-key collapse, named record) arms.  Source `unwrap()` panics on
non-object items are modelled as the empty object; recursion is bounded by
`fuel` (exact for large fuel on acyclic descriptions). -/
def determine_type (resolve : RefResolver) :
    Nat → String → Schema → GenState → RustType × GenState
  | 0, _, _, st => (.rValue, st)
  | fuel + 1, name, schema0, st =>
      let expanded := (expand_ref resolve (fuel + 1) schema0).getD (name, schema0)
      let typeName := expanded.1
      let schema := expanded.2
      match (alGet "allOf" schema).bind asArray with
      | some allOf =>
          determine_type resolve fuel typeName (foldAllOf resolve (fuel + 1) allOf) st
      | none =>
        let schemaType :=
          match (alGet "type" schema).bind asString with
          | some t => some t
          | none =>
              if (alGet "properties" schema).isSome then some "object"
              else if (alGet "items" schema).isSome then some "array"
              else none
        match schemaType with
        | some "string" =>
            match (alGet "enum" schema).bind asArray with
            | some enumValues =>
                let enumName := to_valid_pascal_case typeName
                if st.generatedTypes.contains enumName then (.rNamed enumName, st)
                else
                  (.rNamed enumName,
                   { st with generatedTypes := enumName :: st.generatedTypes,
                             enums := st.enums ++ [(enumName, enumWireValues enumValues)] })
            | none => (.rString, st)
        | some "integer" => (.rI64, st)
        | some "number" => (.rF64, st)
        | some "boolean" => (.rBool, st)
        | some "array" =>
            match alGet "items" schema with
            | some (.jobj itemsSchema) =>
                let r := determine_type resolve fuel typeName itemsSchema st
                (.rVec r.1, r.2)
            | some (.jarr items) =>
                let folded := items.foldl
                  (fun (acc : List RustType × GenState × Nat) item =>
                    let itemSchema := (asObject item).getD []
                    let itemTypeName :=
                      match (alGet "description" itemSchema).bind asString with
                      | some d => typeName ++ "_" ++ d
                      | none => typeName ++ "_" ++ toString acc.2.2
                    let r := determine_type resolve fuel itemTypeName itemSchema acc.2.1
                    (acc.1 ++ [r.1], r.2, acc.2.2 + 1))
                  ([], st, 0)
                (.rTuple folded.1, folded.2.1)
            | _ => (.rVec .rValue, st)
        | some "object" =>
            match alGet "properties" schema with
            | some properties =>
                let dollarValue : Option (RustType × GenState) :=
                  match jget properties "$value" with
                  | none => none
                  | some v =>
                      match asObject v with
                      | none => none
                      | some value =>
                          let propertyTypeName :=
                            match (alGet "name" value).bind asString with
                            | some n => typeName ++ "_" ++ n
                            | none => typeName
                          match (alGet "schema" value).bind asObject with
                          | none => none
                          | some sch =>
                              some (determine_type resolve fuel propertyTypeName sch st)
                match dollarValue with
                | some r => (.rHashMap r.1, r.2)
                | none =>
                  let structName := to_valid_pascal_case typeName
                  if st.generatedTypes.contains structName then (.rNamed structName, st)
                  else
                    let st1 : GenState :=
                      { st with generatedTypes := structName :: st.generatedTypes }
                    let requiredProperties :=
                      (((alGet "required" schema).bind asArray).map
                        (List.filterMap asString)).getD []
                    match properties with
                    | .jarr propList =>
                        let folded := propList.foldl
                          (fun (acc : List FieldSpec × GenState) pv =>
                            match asObject pv with
                            | none => acc
                            | some property =>
                                let ex :=
                                  match expand_ref resolve (fuel + 1) property with
                                  | some x => some x
                                  | none =>
                                      ((alGet "name" property).bind asString).map
                                        fun key => (typeName ++ "_" ++ key, property)
                                match ex with
                                | none => acc
                                | some (propertyTypeName, property) =>
                                    match (alGet "name" property).bind asString with
                                    | none => acc
                                    | some key =>
                                        let required :=
                                          ((alGet "required" property).bind asBool).getD false
                                        match (alGet "schema" property).bind asObject with
                                        | none => acc
                                        | some psch =>
                                            let r := determine_type resolve fuel
                                              propertyTypeName psch acc.2
                                            (acc.1 ++
                                              [⟨key, r.1,
                                                requiredProperties.contains key || required⟩],
                                             r.2))
                          ([], st1)
                        (.rNamed structName,
                         { folded.2 with
                             structs := folded.2.structs ++ [(structName, folded.1)] })
                    | .jobj propObj =>
                        let folded := propObj.foldl
                          (fun (acc : Except (RustType × GenState) (List FieldSpec × GenState)) kv =>
                            match acc with
                            | .error r => .error r
                            | .ok a =>
                                let propertyTypeName := typeName ++ "_" ++ kv.1
                                let r := determine_type resolve fuel propertyTypeName
                                  ((asObject kv.2).getD []) a.2
                                if strStartsWith kv.1 "\x7b" && strEndsWith kv.1 "\x7d" then
                                  .error (.rHashMap r.1,
                                    { r.2 with
                                        generatedTypes := r.2.generatedTypes.erase structName })
                                else
                                  .ok (a.1 ++ [⟨kv.1, r.1, requiredProperties.contains kv.1⟩],
                                       r.2))
                          (.ok ([], st1))
                        match folded with
                        | .error r => r
                        | .ok a =>
                            (.rNamed structName,
                             { a.2 with structs := a.2.structs ++ [(structName, a.1)] })
                    | _ =>
                        (.rNamed structName,
                         { st1 with structs := st1.structs ++ [(structName, [])] })
            | none => (.rHashMap .rValue, st)
        | _ => (.rValue, st)

/-! Concrete instances used by witnesses and counterexamples. -/

/-- A loop state with two concurrent calls pending (ids 1 and 2, completion
handles 10 and 20) and the shared counter past both. -/
def c1s0 : LoopState := ⟨[(1, 10), (2, 20)], [], 3, [], [], []⟩

/-- A loop state whose registry has an endpoint for "c" with no live
receivers (its only subscriber already dropped its reader). -/
def c5s0 : LoopState := ⟨[], [("c", ⟨0⟩)], 0, [], [], []⟩

/-- A loop state with pending ids 0 and 1 and counter 2. -/
def c6s0 : LoopState := ⟨[(0, 5), (1, 7)], [], 2, [], [], []⟩

/-- Serialized field values of the generated trades channel struct:
instrument_name = "BTC-PERPETUAL", interval = agg2 (the interval enum variant
serializes to its rename literal "agg2"). -/
def tradesFields : String → JVal := fun n =>
  if n = "instrument_name" then .jstr "BTC-PERPETUAL" else .jstr "agg2"

/-- Serialized field values of the generated 4-parameter book channel struct:
instrument_name = "BTC-PERPETUAL", group = none, depth = 10, interval = agg2. -/
def bookFields : String → JVal := fun n =>
  if n = "instrument_name" then .jstr "BTC-PERPETUAL"
  else if n = "group" then .jstr "none"
  else if n = "depth" then .jnum 10
  else .jstr "agg2"

/-- A referenced base schema: an object with property "a" required. -/
def c3BaseSchema : Schema :=
  [("type", .jstr "object"),
   ("properties", .jobj [("a", .jobj [("type", .jstr "integer")])]),
   ("required", .jarr [.jstr "a"])]

/-- A resolver knowing exactly one pointer. -/
def c3Resolve : RefResolver := fun p =>
  if p = "#/components/schemas/base" then some ("base", c3BaseSchema) else none

/-- An allOf list element that is a pure reference to the base schema. -/
def c3RefFrag : Schema := [("$ref", .jstr "#/components/schemas/base")]

/-- A later allOf fragment adding property "b", requiring it, and carrying a
scalar "title" field. -/
def c3SecondFrag : Schema :=
  [("properties", .jobj [("b", .jobj [("type", .jstr "string")])]),
   ("required", .jarr [.jstr "b"]),
   ("title", .jstr "second")]

/-- A composite schema: allOf of the reference fragment and the second
fragment. -/
def c3Composite : Schema := [("allOf", .jarr [.jobj c3RefFrag, .jobj c3SecondFrag])]

/-- A minimal description document that has no
"#/components/schemas/missing" fragment. -/
def c4MiniSpec : JVal :=
  .jobj [("components", .jobj [("schemas", .jobj [("types", .jobj [])])]),
         ("paths", .jobj [])]

/-- A schema consisting solely of a dangling reference pointer. -/
def c4Dangling : Schema := [("$ref", .jstr "#/components/schemas/missing")]

/-! Shared helper lemmas. -/

section AssocListLemmas

variable {κ : Type _} {α : Type _} [DecidableEq κ]

theorem alGet_alRemove_self (k : κ) (m : List (κ × α)) : alGet k (alRemove k m) = none := by
  induction m with
  | nil => rfl
  | cons kv rest ih =>
    by_cases h : kv.1 = k
    · simpa [alRemove, h] using ih
    · simpa [alRemove, alGet, h] using ih

theorem alGet_alRemove_ne {k k' : κ} (h : k' ≠ k) (m : List (κ × α)) :
    alGet k' (alRemove k m) = alGet k' m := by
  induction m with
  | nil => rfl
  | cons kv rest ih =>
    by_cases hk : kv.1 = k
    · have hne : kv.1 ≠ k' := by rw [hk]; exact h.symm
      simp [alRemove, alGet, hk, hne, ih, h.symm]
    · simp only [alRemove, hk, if_false, alGet]
      by_cases hk' : kv.1 = k'
      · simp [hk', ih, h.symm]
      · simp [hk', ih]

theorem alGet_alInsert_self (k : κ) (v : α) (m : List (κ × α)) :
    alGet k (alInsert k v m) = some v := by
  simp [alInsert, alGet]

theorem alGet_alInsert_ne {k k' : κ} (h : k' ≠ k) (v : α) (m : List (κ × α)) :
    alGet k' (alInsert k v m) = alGet k' m := by
  have : k ≠ k' := fun hx => h hx.symm
  simp [alInsert, alGet, this, alGet_alRemove_ne h]

theorem mem_of_mem_alRemove {k : κ} {kv : κ × α} {m : List (κ × α)}
    (h : kv ∈ alRemove k m) : kv ∈ m := by
  induction m with
  | nil => simp [alRemove] at h
  | cons hd rest ih =>
    by_cases hk : hd.1 = k
    · simp [alRemove, hk] at h
      exact List.mem_cons_of_mem _ (ih h)
    · simp [alRemove, hk] at h
      rcases h with h | h
      · exact h ▸ List.mem_cons_self _ _
      · exact List.mem_cons_of_mem _ (ih h)

theorem alGet_eq_none_of_forall {k : κ} {m : List (κ × α)}
    (h : ∀ kv ∈ m, kv.1 ≠ k) : alGet k m = none := by
  induction m with
  | nil => rfl
  | cons hd rest ih =>
    have h1 : hd.1 ≠ k := h hd (List.mem_cons_self _ _)
    simp only [alGet, h1, if_false]
    exact ih fun kv hkv => h kv (List.mem_cons_of_mem _ hkv)

theorem alGet_alExtend (k : κ) (base : List (κ × α)) (extra : List (κ × α))
    (hn : keysNodup extra) :
    alGet k (alExtend base extra) = optOr (alGet k extra) (alGet k base) := by
  induction extra generalizing base with
  | nil => simp [alExtend, alGet, optOr]
  | cons kv rest ih =>
    have hn' : keysNodup rest := by
      simpa [keysNodup] using (List.nodup_cons.mp hn).2
    have hmem : kv.1 ∉ rest.map Prod.fst := by
      simpa [keysNodup] using (List.nodup_cons.mp hn).1
    have := ih (alInsert kv.1 kv.2 base) hn'
    by_cases hk : kv.1 = k
    · subst hk
      have hrest : alGet kv.1 rest = none := by
        refine alGet_eq_none_of_forall fun p hp hq => hmem ?_
        exact hq ▸ List.mem_map_of_mem Prod.fst hp
      simp only [alExtend, List.foldl_cons] at *
      rw [this, hrest]
      simp [alGet, alGet_alInsert_self, optOr]
    · have hk' : k ≠ kv.1 := fun hx => hk hx.symm
      simp only [alExtend, List.foldl_cons] at *
      rw [this, alGet_alInsert_ne hk']
      simp [alGet, hk]

end AssocListLemmas

theorem forall_ne_of_alGet_eq_none {κ α : Type _} [DecidableEq κ] {k : κ}
    {m : List (κ × α)} (h : alGet k m = none) : ∀ kv ∈ m, kv.1 ≠ k := by
  induction m with
  | nil => intro kv hkv; cases hkv
  | cons hd rest ih =>
    intro kv hkv
    by_cases hh : hd.1 = k
    · simp [alGet, hh] at h
    · rcases List.mem_cons.mp hkv with h1 | h1
      · rw [h1]; exact hh
      · exact ih (by simpa [alGet, hh] using h) kv h1

theorem keysNodup_alRemove {κ α : Type _} [DecidableEq κ] {m : List (κ × α)}
    (h : keysNodup m) (k : κ) : keysNodup (alRemove k m) := by
  induction m with
  | nil => exact h
  | cons hd rest ih =>
    have h1 := (List.nodup_cons.mp h).1
    have h2 := (List.nodup_cons.mp h).2
    by_cases hh : hd.1 = k
    · simpa [alRemove, hh] using ih h2
    · have hrest : (List.map Prod.fst (alRemove k rest)).Nodup := ih h2
      have hgoal : (List.map Prod.fst (hd :: alRemove k rest)).Nodup := by
        rw [List.map_cons]
        refine List.nodup_cons.mpr ⟨?_, hrest⟩
        intro hmem
        rcases List.mem_map.mp hmem with ⟨p, hp, hpk⟩
        exact h1 (hpk ▸ List.mem_map_of_mem Prod.fst (mem_of_mem_alRemove hp))
      simpa [keysNodup, alRemove, hh] using hgoal

theorem expand_ref_no_ref {resolve : RefResolver} {obj : Schema}
    (h : alGet "$ref" obj = none) (fuel : Nat) :
    expand_ref resolve fuel obj = none := by
  cases fuel <;> simp [expand_ref, h]

theorem mergeEntry_other {k : String} (hk1 : k ≠ "properties")
    (hk2 : k ≠ "required") (acc : Schema) (v : JVal) :
    mergeEntry acc k v = alInsert k v acc := by
  unfold mergeEntry
  rw [if_neg hk1, if_neg hk2]

theorem alGet_mergeEntry_ne {acc : Schema} {key k : String} (h : k ≠ key)
    (value : JVal) : alGet k (mergeEntry acc key value) = alGet k acc := by
  unfold mergeEntry
  by_cases h1 : key = "properties"
  · rw [if_pos h1]
    exact alGet_alInsert_ne (h1 ▸ h) _ _
  · rw [if_neg h1]
    by_cases h2 : key = "required"
    · rw [if_pos h2]
      exact alGet_alInsert_ne (h2 ▸ h) _ _
    · rw [if_neg h2]
      exact alGet_alInsert_ne h _ _

theorem mergeSchema_cons (acc : Schema) (kv : String × JVal) (rest : Schema) :
    mergeSchema acc (kv :: rest) = mergeSchema (mergeEntry acc kv.1 kv.2) rest := rfl

theorem alGet_mergeSchema_not_mem {frag : Schema} {k : String}
    (h : ∀ kv ∈ frag, kv.1 ≠ k) (acc : Schema) :
    alGet k (mergeSchema acc frag) = alGet k acc := by
  induction frag generalizing acc with
  | nil => rfl
  | cons kv rest ih =>
    rw [mergeSchema_cons,
      ih (fun p hp => h p (List.mem_cons_of_mem _ hp)),
      alGet_mergeEntry_ne (Ne.symm (h kv (List.mem_cons_self _ _)))]

theorem findIdx_get_of_nodup {l : List String} (hn : l.Nodup) (i : Fin l.length) :
    l.findIdx? (fun v => v = l.get i) = some i.val := by
  induction l with
  | nil => exact absurd i.isLt (by simp)
  | cons a as ih =>
    cases i using Fin.cases with
    | zero => simp
    | succ j =>
      have hmem : as.get j ∈ as := List.get_mem as j.1 j.2
      have hne : a ≠ as.get j := by
        intro hx
        exact (List.nodup_cons.mp hn).1 (hx ▸ hmem)
      have ihj := ih (List.nodup_cons.mp hn).2 j
      simp only [List.get_eq_getElem] at hne ihj
      simp [List.get_cons_succ, List.findIdx?_cons, hne, ihj, Fin.val_succ]

theorem keys_ne_of_head_nodup {hd : String × JVal} {rest : Schema}
    (hn : keysNodup (hd :: rest)) : ∀ p ∈ rest, p.1 ≠ hd.1 := by
  intro p hp hpk
  exact (List.nodup_cons.mp hn).1 (hpk ▸ List.mem_map_of_mem Prod.fst hp)

theorem mergeSchema_overwrites {frag : Schema} {k : String} {v : JVal}
    (hn : keysNodup frag) (hk1 : k ≠ "properties") (hk2 : k ≠ "required")
    (hget : alGet k frag = some v) (acc : Schema) :
    alGet k (mergeSchema acc frag) = some v := by
  induction frag generalizing acc with
  | nil => cases hget
  | cons kv rest ih =>
    by_cases hh : kv.1 = k
    · have hv : kv.2 = v := by
        have := hget
        simp [alGet, hh] at this
        exact this
      rw [mergeSchema_cons,
        alGet_mergeSchema_not_mem (fun p hp => (hh ▸ keys_ne_of_head_nodup hn p hp)),
        hh, hv, mergeEntry_other hk1 hk2, alGet_alInsert_self]
    · rw [mergeSchema_cons]
      exact ih (List.nodup_cons.mp hn).2 (by simpa [alGet, hh] using hget) _

theorem mergeEntry_properties {acc : Schema} {ps : List (String × JVal)}
    (hacc : alGet "properties" acc = some (.jobj ps)) (qs : List (String × JVal)) :
    mergeEntry acc "properties" (.jobj qs)
      = alInsert "properties" (.jobj (alExtend ps qs)) acc := by
  unfold mergeEntry
  rw [if_pos rfl, hacc]
  rfl

theorem mergeEntry_required {acc : Schema} {rs : List JVal}
    (hacc : alGet "required" acc = some (.jarr rs)) (ss : List JVal) :
    mergeEntry acc "required" (.jarr ss)
      = alInsert "required" (.jarr (rs ++ ss)) acc := by
  unfold mergeEntry
  rw [if_neg (by decide), if_pos rfl, hacc]
  rfl

theorem mergeSchema_properties_union {frag : Schema} {ps qs : List (String × JVal)}
    (hn : keysNodup frag)
    (hfrag : alGet "properties" frag = some (.jobj qs)) :
    ∀ acc, alGet "properties" acc = some (.jobj ps) →
      alGet "properties" (mergeSchema acc frag) = some (.jobj (alExtend ps qs)) := by
  induction frag with
  | nil => cases hfrag
  | cons kv rest ih =>
    intro acc hacc
    by_cases hh : kv.1 = "properties"
    · have hv : kv.2 = .jobj qs := by
        have := hfrag
        simp [alGet, hh] at this
        exact this
      rw [mergeSchema_cons,
        alGet_mergeSchema_not_mem (fun p hp => (hh ▸ keys_ne_of_head_nodup hn p hp)),
        hh, hv, mergeEntry_properties hacc qs, alGet_alInsert_self]
    · rw [mergeSchema_cons]
      refine ih (List.nodup_cons.mp hn).2 (by simpa [alGet, hh] using hfrag)
        (mergeEntry acc kv.1 kv.2) ?_
      rw [alGet_mergeEntry_ne (fun hx => hh hx.symm) kv.2]
      exact hacc

theorem mergeSchema_required_concat {frag : Schema} {rs ss : List JVal}
    (hn : keysNodup frag)
    (hfrag : alGet "required" frag = some (.jarr ss)) :
    ∀ acc, alGet "required" acc = some (.jarr rs) →
      alGet "required" (mergeSchema acc frag) = some (.jarr (rs ++ ss)) := by
  induction frag with
  | nil => cases hfrag
  | cons kv rest ih =>
    intro acc hacc
    by_cases hh : kv.1 = "required"
    · have hv : kv.2 = .jarr ss := by
        have := hfrag
        simp [alGet, hh] at this
        exact this
      rw [mergeSchema_cons,
        alGet_mergeSchema_not_mem (fun p hp => (hh ▸ keys_ne_of_head_nodup hn p hp)),
        hh, hv, mergeEntry_required hacc ss, alGet_alInsert_self]
    · rw [mergeSchema_cons]
      refine ih (List.nodup_cons.mp hn).2 (by simpa [alGet, hh] using hfrag)
        (mergeEntry acc kv.1 kv.2) ?_
      rw [alGet_mergeEntry_ne (fun hx => hh hx.symm) kv.2]
      exact hacc

/-! Claim theorems. -/

/-- C1: every outbound request registers its id in the pending table; a
success (or error) response pops the pending entry for exactly its own id and
fulfills that entry's completion handle with the decoded result (or decoded
RPC error); a response whose id has no pending entry is a no-op; consequently
two concurrent calls with distinct ids each resolve to the result carried by
the response bearing their own id, in either arrival order. -/
theorem c1_request_response_correlation :
    (∀ s req tx, step s (.request req tx)
        = { s with pending := alInsert req.id tx s.pending, sent := s.sent ++ [req] } ∧
      alGet req.id (step s (.request req tx)).pending = some tx) ∧
    (∀ s id r tx, alGet id s.pending = some tx →
      step s (.okResponse id r)
        = { s with pending := alRemove id s.pending,
                   fulfilled := s.fulfilled ++ [(tx, Except.ok r)] }) ∧
    (∀ s id e tx, alGet id s.pending = some tx →
      step s (.errResponse id e)
        = { s with pending := alRemove id s.pending,
                   fulfilled := s.fulfilled
                     ++ [(tx, Except.error (ClientError.rpcError e))] }) ∧
    (∀ s id r, alGet id s.pending = none → step s (.okResponse id r) = s) ∧
    (∀ s id e, alGet id s.pending = none → step s (.errResponse id e) = s) ∧
    (∀ s id₁ id₂ tx₁ tx₂ r₁ r₂, id₁ ≠ id₂ →
      alGet id₁ s.pending = some tx₁ → alGet id₂ s.pending = some tx₂ →
      (step (step s (.okResponse id₁ r₁)) (.okResponse id₂ r₂)).fulfilled
          = s.fulfilled ++ [(tx₁, Except.ok r₁), (tx₂, Except.ok r₂)] ∧
      (step (step s (.okResponse id₂ r₂)) (.okResponse id₁ r₁)).fulfilled
          = s.fulfilled ++ [(tx₂, Except.ok r₂), (tx₁, Except.ok r₁)]) := by
  refine ⟨?_, ?_, ?_, ?_, ?_, ?_⟩
  · intro s req tx
    exact ⟨rfl, alGet_alInsert_self _ _ _⟩
  · intro s id r tx h
    simp [step, h]
  · intro s id e tx h
    simp [step, h]
  · intro s id r h
    simp [step, h]
  · intro s id e h
    simp [step, h]
  · intro s id₁ id₂ tx₁ tx₂ r₁ r₂ hne h₁ h₂
    have h₂' : alGet id₂ (alRemove id₁ s.pending) = some tx₂ := by
      rw [alGet_alRemove_ne (Ne.symm hne)]; exact h₂
    have h₁' : alGet id₁ (alRemove id₂ s.pending) = some tx₁ := by
      rw [alGet_alRemove_ne hne]; exact h₁
    constructor <;> simp [step, h₁, h₂, h₁', h₂']

/-- C1 witness: two pending calls (id 1 ↦ handle 10, id 2 ↦ handle 20)
resolved out of order each receive their own result. -/
theorem c1_witness :
    (step (step c1s0 (.okResponse 2 (.jstr "b"))) (.okResponse 1 (.jstr "a"))).fulfilled
      = [(20, Except.ok (JVal.jstr "b")), (10, Except.ok (JVal.jstr "a"))] := by
  have h := (c1_request_response_correlation.2.2.2.2.2 c1s0 1 2 10 20
      (.jstr "a") (.jstr "b") (by decide) rfl rfl).2
  simpa [c1s0] using h

/-- C5 counterexample: a registry entry created by the first subscription to
channel "c" is removed during the connection's lifetime — after its only
subscriber drops its reader, the next notification's failed broadcast send
deletes the entry, contradicting "never removed for the connection's
lifetime". -/
theorem c5_counterexample :
    alGet "c" (step initLoopState (.subscribeReg "c" 0)).subscribers = some ⟨1⟩ ∧
    alGet "c" (step (dropReceiver (step initLoopState (.subscribeReg "c" 0)) "c")
        (.notification "c" .jnull)).subscribers = none :=
  ⟨rfl, rfl⟩

/-- C5 as amended: a registry entry is created lazily by the first
subscription and reused by later ones; it persists until a notification
delivery finds its endpoint with no live receivers, at which point the loop
silently removes it (self-cleaning, not an error); a delivery whose channel
has a live entry is published and keeps the entry; a delivery with no entry
at all is silently dropped. -/
theorem c5_registry_lifecycle :
    (∀ s channel tx, alGet channel s.subscribers = none →
      step s (.subscribeReg channel tx)
        = { s with subscribers := alInsert channel ⟨1⟩ s.subscribers }) ∧
    (∀ s channel tx ep, alGet channel s.subscribers = some ep →
      step s (.subscribeReg channel tx)
        = { s with subscribers := alInsert channel ⟨ep.receivers + 1⟩ s.subscribers }) ∧
    (∀ s channel d ep, alGet channel s.subscribers = some ep → ep.receivers ≠ 0 →
      step s (.notification channel d)
        = { s with delivered := s.delivered ++ [(channel, d)] }) ∧
    (∀ s channel d ep, alGet channel s.subscribers = some ep → ep.receivers = 0 →
      step s (.notification channel d)
        = { s with subscribers := alRemove channel s.subscribers }) ∧
    (∀ s channel d, alGet channel s.subscribers = none →
      step s (.notification channel d) = s) := by
  refine ⟨?_, ?_, ?_, ?_, ?_⟩
  · intro s channel tx h
    simp [step, h]
  · intro s channel tx ep h
    simp [step, h]
  · intro s channel d ep h hr
    simp [step, h, hr]
  · intro s channel d ep h hr
    simp [step, h, hr]
  · intro s channel d h
    simp [step, h]

/-- C5 witness: a notification for a channel whose endpoint has zero live
receivers removes the registry entry. -/
theorem c5_witness :
    (step c5s0 (.notification "c" .jnull)).subscribers = [] := by
  have h := c5_registry_lifecycle.2.2.2.1 c5s0 "c" JVal.jnull ⟨0⟩ rfl rfl
  rw [h]
  rfl

/-- C6: an inbound heartbeat of type test_request sends exactly one outbound
"public/test" request with null params and a fresh id taken from the shared
monotonic counter, registering no completion handle (pending and fulfilled
are untouched); under the invariant that all pending ids were allocated from
that counter, the fresh id collides with no pending caller id; a heartbeat of
type heartbeat triggers no outbound message; the invariant is preserved by
every loop event (caller requests carry ids already allocated from the
counter). -/
theorem c6_heartbeat_test_request :
    (∀ s, step s (.heartbeat .testRequest)
        = { s with counter := s.counter + 1,
                   sent := s.sent ++ [⟨s.counter, "public/test", JVal.jnull⟩] }) ∧
    (∀ s, step s (.heartbeat .heartbeat) = s) ∧
    (∀ s, pendingBound s → alGet s.counter s.pending = none) ∧
    (∀ s e, pendingBound s →
      (∀ req tx, e = Event.request req tx → req.id < s.counter) →
      pendingBound (step s e)) := by
  refine ⟨?_, ?_, ?_, ?_⟩
  · intro s
    simp [step]
  · intro s
    simp [step]
  · intro s h
    exact alGet_eq_none_of_forall fun kv hkv => Nat.ne_of_lt (h kv hkv)
  · intro s e h hreq
    cases e with
    | heartbeat t =>
      cases t with
      | testRequest =>
        have hstep : step s (.heartbeat .testRequest)
            = { s with counter := s.counter + 1,
                       sent := s.sent ++ [⟨s.counter, "public/test", JVal.jnull⟩] } := by
          simp [step]
        rw [hstep]
        intro kv hkv
        exact Nat.lt_trans (h kv hkv) (Nat.lt_succ_self _)
      | heartbeat =>
        have hstep : step s (.heartbeat .heartbeat) = s := by simp [step]
        rw [hstep]
        exact h
    | notification channel d =>
      rcases hg : alGet channel s.subscribers with _ | ep
      · have hstep : step s (.notification channel d) = s := by simp [step, hg]
        rw [hstep]
        exact h
      · by_cases hr : ep.receivers = 0
        · have hstep : step s (.notification channel d)
              = { s with subscribers := alRemove channel s.subscribers } := by
            simp [step, hg, hr]
          rw [hstep]
          exact h
        · have hstep : step s (.notification channel d)
              = { s with delivered := s.delivered ++ [(channel, d)] } := by
            simp [step, hg, hr]
          rw [hstep]
          exact h
    | okResponse id r =>
      rcases hg : alGet id s.pending with _ | tx
      · have hstep : step s (.okResponse id r) = s := by simp [step, hg]
        rw [hstep]
        exact h
      · have hstep : step s (.okResponse id r)
            = { s with pending := alRemove id s.pending,
                       fulfilled := s.fulfilled ++ [(tx, Except.ok r)] } := by
          simp [step, hg]
        rw [hstep]
        intro kv hkv
        exact h kv (mem_of_mem_alRemove hkv)
    | errResponse id e' =>
      rcases hg : alGet id s.pending with _ | tx
      · have hstep : step s (.errResponse id e') = s := by simp [step, hg]
        rw [hstep]
        exact h
      · have hstep : step s (.errResponse id e')
            = { s with pending := alRemove id s.pending,
                       fulfilled := s.fulfilled
                         ++ [(tx, Except.error (ClientError.rpcError e'))] } := by
          simp [step, hg]
        rw [hstep]
        intro kv hkv
        exact h kv (mem_of_mem_alRemove hkv)
    | request req tx =>
      intro kv hkv
      rcases List.mem_cons.mp hkv with h1 | h1
      · rw [h1]
        exact hreq req tx rfl
      · exact h kv (mem_of_mem_alRemove h1)
    | subscribeReg channel tx =>
      rcases hg : alGet channel s.subscribers with _ | ep
      · have hstep : step s (.subscribeReg channel tx)
            = { s with subscribers := alInsert channel ⟨1⟩ s.subscribers } := by
          simp [step, hg]
        rw [hstep]
        exact h
      · have hstep : step s (.subscribeReg channel tx)
            = { s with subscribers := alInsert channel ⟨ep.receivers + 1⟩ s.subscribers } := by
          simp [step, hg]
        rw [hstep]
        exact h

/-- C6 witness: in a state with pending ids 0 and 1 and shared counter 2, the
fresh heartbeat id 2 has no pending entry. -/
theorem c6_witness : alGet c6s0.counter c6s0.pending = none :=
  c6_heartbeat_test_request.2.2.1 c6s0
    (show ∀ kv ∈ c6s0.pending, kv.1 < c6s0.counter by decide)

/-- C7: subscribe_raw issues a subscribe call carrying exactly the single
requested channel, private-scoped iff the authenticated flag is set; it
registers a reader for the first channel of the server's result (not
necessarily the requested one); when the result lists no channel it returns
an invalid-subscription error naming the requested channel and registers
nothing. -/
theorem c7_subscribe_raw :
    (∀ channel res, (subscribe_raw true channel res).callMethod = "private/subscribe") ∧
    (∀ channel res, (subscribe_raw false channel res).callMethod = "public/subscribe") ∧
    (∀ a channel res, isPrivateName (subscribe_raw a channel res).callMethod = a) ∧
    (∀ a channel res, (subscribe_raw a channel res).sentChannels = [channel]) ∧
    (∀ a channel res, (subscribe_raw a channel res).registeredChannel = res.head?) ∧
    (∀ a channel c rest,
      (subscribe_raw a channel (c :: rest)).result = .ok () ∧
      (subscribe_raw a channel (c :: rest)).registeredChannel = some c) ∧
    (∀ a channel,
      (subscribe_raw a channel []).result
          = .error (.invalidSubscriptionChannel channel) ∧
      (subscribe_raw a channel []).registeredChannel = none) := by
  refine ⟨?_, ?_, ?_, ?_, ?_, ?_, ?_⟩
  · intro channel res
    cases res <;> rfl
  · intro channel res
    cases res <;> rfl
  · intro a channel res
    cases a <;> cases res <;> rfl
  · intro a channel res
    cases a <;> cases res <;> rfl
  · intro a channel res
    cases a <;> cases res <;> rfl
  · intro a channel c rest
    cases a <;> exact ⟨rfl, rfl⟩
  · intro a channel
    cases a <;> exact ⟨rfl, rfl⟩

/-- C10: the authenticated flag starts false after connect and is set to true
exactly by a successful call_raw whose method string is literally
"public/auth"; a failed call (including a failed public/auth) and a
successful call of any other method leave it unchanged; it is never unset;
each call sends a request with the method, the params, and the next counter
value as id, and bumps the counter. -/
theorem c10_authenticated_flag :
    connectClient.authenticated = false ∧
    (∀ c method params v,
      (call_raw c method params (.ok v)).1.authenticated
        = (c.authenticated || decide (method = "public/auth"))) ∧
    (∀ c method params e,
      (call_raw c method params (.error e)).1.authenticated = c.authenticated) ∧
    (∀ c method params reply,
      (call_raw c method params reply).2.1
          = ⟨c.idCounter, method, params⟩ ∧
      (call_raw c method params reply).1.idCounter = c.idCounter + 1) := by
  refine ⟨rfl, ?_, ?_, ?_⟩
  · intro c method params v
    by_cases h : method = "public/auth" <;> simp [call_raw, h]
  · intro c method params e
    simp [call_raw]
  · intro c method params reply
    cases reply with
    | ok v => by_cases h : method = "public/auth" <;> simp [call_raw, h]
    | error e => simp [call_raw]

/-- C2: the generated channel_string equals the template with each
dot-separated brace-delimited parameter segment replaced by the
stringification of the corresponding field value (strings pass through
unquoted, numbers and booleans stringify canonically, other values fall back
to their JSON text form), literal segments untouched, all joined with ".";
in particular the trades template with instrument "BTC-PERPETUAL" and
interval agg2 yields "trades.BTC-PERPETUAL.agg2", and the 4-parameter book
template with group none, depth 10, interval agg2 yields
"book.BTC-PERPETUAL.none.10.agg2". -/
theorem c2_channel_string :
    (∀ channelKey fields,
      channel_string channelKey fields = specChannelString channelKey fields) ∧
    channel_string "trades.\x7binstrument_name\x7d.\x7binterval\x7d" tradesFields
        = "trades.BTC-PERPETUAL.agg2" ∧
    channel_string
        "book.\x7binstrument_name\x7d.\x7bgroup\x7d.\x7bdepth\x7d.\x7binterval\x7d"
        bookFields
        = "book.BTC-PERPETUAL.none.10.agg2" := by
  refine ⟨?_, by decide, by decide⟩
  intro channelKey fields
  unfold channel_string specChannelString
  rw [List.map_map]
  refine congrArg (String.intercalate ".") (List.map_congr_left ?_)
  intro part _
  by_cases h : strStartsWith part "\x7b" && strEndsWith part "\x7d" <;>
    simp [channelSegment, parseSegment, renderSegment, Function.comp, h]

/-- C8: an optional field whose value is absent is omitted entirely from the
serialized parameter object (never emitted as a null key); a request whose
fields are all optional and absent serializes to exactly the empty JSON
object; a required field is always serialized. -/
theorem c8_optional_field_serialization :
    (∀ (pre post : List FieldValue) (name : String),
      to_params (pre ++ FieldValue.optionalField name none :: post)
        = to_params (pre ++ post)) ∧
    (∀ names : List String,
      to_params (names.map fun n => FieldValue.optionalField n none) = .jobj []) ∧
    (∀ (pre post : List FieldValue) (name : String) (v : JVal),
      (name, v) ∈ objFields (to_params (pre ++ FieldValue.requiredField name v :: post))) := by
  refine ⟨?_, ?_, ?_⟩
  · intro pre post name
    simp [to_params, List.filterMap_append, serializeField]
  · intro names
    simp [to_params, List.filterMap_map, Function.comp, serializeField]
  · intro pre post name v
    simp [to_params, objFields, List.filterMap_append, serializeField]

/-- C9: every variant of a generated enumerated string type serializes to
exactly its original wire literal and deserializes from that literal back to
the same variant (round trip), provided the type exists — i.e. the
case-normalized variant identifiers are distinct, which forces the literals
to be distinct; e.g. "BTC" keeps its exact uppercase wire form even though
its variant identifier is normalized to "Btc". -/
theorem c9_enum_roundtrip :
    (∀ values : List String, (values.map to_valid_pascal_case).Nodup →
      ∀ i : Fin values.length,
        enumSerialize values i = values.get i ∧
        enumDeserialize values (enumSerialize values i) = some i.val) ∧
    to_valid_pascal_case "BTC" = "Btc" ∧
    enumWireValues [.jstr "BTC", .jstr "ETH", .jstr "USDC"]
        = ["BTC", "ETH", "USDC"] := by
  refine ⟨?_, by decide, by decide⟩
  intro values hpascal i
  exact ⟨rfl, findIdx_get_of_nodup (hpascal.of_map) i⟩

/-- C9 witness: the two-variant currency enum with wire literals "BTC" and
"ETH" round-trips its first variant. -/
theorem c9_witness :
    enumSerialize ["BTC", "ETH"] ⟨0, by decide⟩ = "BTC" ∧
    enumDeserialize ["BTC", "ETH"] "BTC" = some 0 := by
  have h := c9_enum_roundtrip.1 ["BTC", "ETH"] (by decide) ⟨0, by decide⟩
  exact ⟨h.1, h.2⟩

/-- C3: a composite (allOf) schema is folded left-to-right into one effective
schema and the fold's result is recursively re-synthesized; each list element
that is a reference is resolved (with sibling overrides applied) before
merging; within the fold, later fragments' "properties" maps are unioned into
earlier ones (later entries winning on key clashes), later "required" lists
are concatenated onto earlier ones, and every other field is overwritten by
the later fragment. -/
theorem c3_allof_merge :
    (∀ (resolve : RefResolver) fuel name frags st (schema : Schema),
      alGet "$ref" schema = none →
      (alGet "allOf" schema).bind asArray = some frags →
      determine_type resolve (fuel + 1) name schema st
        = determine_type resolve fuel name (foldAllOf resolve (fuel + 1) frags) st) ∧
    (∀ (resolve : RefResolver) fuel (v : JVal) (obj robj : Schema) (p nm : String),
      asObject v = some obj → keysNodup obj →
      alGet "$ref" obj = some (.jstr p) →
      resolve p = some (nm, robj) →
      alGet "$ref" robj = none →
      allOfElement resolve (fuel + 1) v = some (alExtend robj (alRemove "$ref" obj))) ∧
    (∀ (acc frag : Schema) k v, keysNodup frag →
      k ≠ "properties" → k ≠ "required" →
      alGet k frag = some v →
      alGet k (mergeSchema acc frag) = some v) ∧
    (∀ (acc frag : Schema) k, alGet k frag = none →
      alGet k (mergeSchema acc frag) = alGet k acc) ∧
    (∀ (acc frag : Schema) ps qs, keysNodup frag →
      alGet "properties" acc = some (.jobj ps) →
      alGet "properties" frag = some (.jobj qs) →
      alGet "properties" (mergeSchema acc frag) = some (.jobj (alExtend ps qs))) ∧
    (∀ (ps qs : List (String × JVal)) x, keysNodup qs →
      alGet x (alExtend ps qs) = optOr (alGet x qs) (alGet x ps)) ∧
    (∀ (acc frag : Schema) rs ss, keysNodup frag →
      alGet "required" acc = some (.jarr rs) →
      alGet "required" frag = some (.jarr ss) →
      alGet "required" (mergeSchema acc frag) = some (.jarr (rs ++ ss))) := by
  refine ⟨?_, ?_, ?_, ?_, ?_, ?_, ?_⟩
  · intro resolve fuel name frags st schema h1 h2
    rw [determine_type]
    simp [expand_ref_no_ref h1, h2]
  · intro resolve fuel v obj robj p nm hv hn href hres hrobj
    have hext : alGet "$ref" (alExtend robj (alRemove "$ref" obj)) = none := by
      rw [alGet_alExtend _ _ _ (keysNodup_alRemove hn "$ref"), alGet_alRemove_self]
      exact hrobj
    have hexp : expand_ref resolve (fuel + 1) obj
        = some (nm, alExtend robj (alRemove "$ref" obj)) := by
      rw [expand_ref]
      simp [href, hres, asString, expand_ref_no_ref hext fuel]
    unfold allOfElement
    rw [hv]
    simp [hexp]
  · intro acc frag k v hn hk1 hk2 hget
    exact mergeSchema_overwrites hn hk1 hk2 hget acc
  · intro acc frag k hget
    exact alGet_mergeSchema_not_mem (forall_ne_of_alGet_eq_none hget) acc
  · intro acc frag ps qs hn hacc hfrag
    exact mergeSchema_properties_union hn hfrag acc hacc
  · intro ps qs x hn
    exact alGet_alExtend x ps qs hn
  · intro acc frag rs ss hn hacc hfrag
    exact mergeSchema_required_concat hn hfrag acc hacc

/-- C3 witness: a two-fragment composite — a pure reference to a base object
schema followed by a fragment adding property "b", requiring it, and
overwriting "title" — exercises every clause of the merge contract. -/
theorem c3_witness :
    (determine_type c3Resolve 4 "t" c3Composite initGenState
      = determine_type c3Resolve 3 "t"
          (foldAllOf c3Resolve 4 [.jobj c3RefFrag, .jobj c3SecondFrag]) initGenState) ∧
    allOfElement c3Resolve 4 (.jobj c3RefFrag)
      = some (alExtend c3BaseSchema (alRemove "$ref" c3RefFrag)) ∧
    alGet "title" (mergeSchema c3BaseSchema c3SecondFrag) = some (.jstr "second") ∧
    alGet "type" (mergeSchema c3BaseSchema c3SecondFrag) = alGet "type" c3BaseSchema ∧
    alGet "properties" (mergeSchema c3BaseSchema c3SecondFrag)
      = some (.jobj (alExtend [("a", .jobj [("type", .jstr "integer")])]
          [("b", .jobj [("type", .jstr "string")])])) ∧
    alGet "a" (alExtend [("a", .jobj [("type", .jstr "integer")])]
        [("b", .jobj [("type", .jstr "string")])])
      = optOr (alGet "a" [("b", JVal.jobj [("type", .jstr "string")])])
          (alGet "a" [("a", JVal.jobj [("type", .jstr "integer")])]) ∧
    alGet "required" (mergeSchema c3BaseSchema c3SecondFrag)
      = some (.jarr [.jstr "a", .jstr "b"]) := by
  have h := c3_allof_merge
  refine ⟨h.1 c3Resolve 3 "t" [.jobj c3RefFrag, .jobj c3SecondFrag] initGenState
      c3Composite rfl rfl, ?_, ?_, ?_, ?_, ?_, ?_⟩
  · exact h.2.1 c3Resolve 3 (.jobj c3RefFrag) c3RefFrag c3BaseSchema
      "#/components/schemas/base" "base" rfl
      (show (List.map Prod.fst c3RefFrag).Nodup by decide) rfl rfl rfl
  · exact h.2.2.1 c3BaseSchema c3SecondFrag "title" (.jstr "second")
      (show (List.map Prod.fst c3SecondFrag).Nodup by decide)
      (by decide) (by decide) rfl
  · exact h.2.2.2.1 c3BaseSchema c3SecondFrag "type" rfl
  · exact h.2.2.2.2.1 c3BaseSchema c3SecondFrag
      [("a", .jobj [("type", .jstr "integer")])]
      [("b", .jobj [("type", .jstr "string")])]
      (show (List.map Prod.fst c3SecondFrag).Nodup by decide) rfl rfl
  · exact h.2.2.2.2.2.1 [("a", .jobj [("type", .jstr "integer")])]
      [("b", .jobj [("type", .jstr "string")])] "a"
      (show (List.map Prod.fst
        [("b", JVal.jobj [("type", JVal.jstr "string")])]).Nodup by decide)
  · exact h.2.2.2.2.2.2 c3BaseSchema c3SecondFrag [.jstr "a"] [.jstr "b"]
      (show (List.map Prod.fst c3SecondFrag).Nodup by decide) rfl rfl

/-- C4 counterexample: a reference pointer with no resolvable target in the
description is not a build-time fatal condition — resolution yields nothing,
reference expansion silently fails, and the schema carrying the dangling
pointer is treated as an inline schema, synthesizing the opaque untyped value
type with generation proceeding (state untouched), exactly the degraded
behavior the claim rules out. -/
theorem c4_counterexample :
    resolve_ref c4MiniSpec [] "#/components/schemas/missing" = none ∧
    expand_ref (resolve_ref c4MiniSpec []) 5 c4Dangling = none ∧
    determine_type (resolve_ref c4MiniSpec []) 5 "trade" c4Dangling initGenState
      = (.rValue, initGenState) :=
  ⟨rfl, rfl, rfl⟩

/-- C4 as amended: a dangling reference pointer is silently tolerated —
`expand_ref` returns nothing and `determine_type` falls back to treating the
carrying schema as an inline schema under the caller-supplied name; when the
schema has no other typing fields this synthesizes the opaque untyped JSON
value type and generation proceeds. -/
theorem c4_dangling_ref_fallback :
    ∀ (resolve : RefResolver) fuel name (schema : Schema) st p,
      alGet "$ref" schema = some (.jstr p) →
      resolve p = none →
      expand_ref resolve (fuel + 1) schema = none ∧
      ((alGet "allOf" schema = none ∧ alGet "type" schema = none ∧
        alGet "properties" schema = none ∧ alGet "items" schema = none) →
        determine_type resolve (fuel + 1) name schema st = (.rValue, st)) := by
  intro resolve fuel name schema st p href hres
  have hexp : expand_ref resolve (fuel + 1) schema = none := by
    rw [expand_ref]
    simp [href, hres, asString]
  refine ⟨hexp, ?_⟩
  rintro ⟨h1, h2, h3, h4⟩
  rw [determine_type]
  simp [hexp, h1, h2, h3, h4]

/-- C4 witness: the amended fallback behavior on the concrete dangling
schema. -/
theorem c4_witness :
    expand_ref (resolve_ref c4MiniSpec []) 8 c4Dangling = none ∧
    determine_type (resolve_ref c4MiniSpec []) 8 "order" c4Dangling initGenState
      = (.rValue, initGenState) := by
  have h := c4_dangling_ref_fallback (resolve_ref c4MiniSpec []) 7 "order" c4Dangling
    initGenState "#/components/schemas/missing" rfl rfl
  exact ⟨h.1, h.2 ⟨rfl, rfl, rfl, rfl⟩⟩

end Deribit
